import Mathlib

/-!
Shallow embedding of `src/m32-firmware-util.c` (D-Link M32 firmware utility).

Buffers are `List Nat` where every entry models one `uint8_t` byte; all reads
go through `byteAt`, which models the C `uint8_t` type by reducing modulo 256
and returns 0 for reads past the end of the buffer.  The OpenSSL primitives
(AES-128-CBC with EVP_BytesToKey, SHA-512/RSA sign and verify) are external
library code, so the pipeline definitions are parameterised over them; all
framing, offsets, checksums and constants are translated from the C source.
-/

namespace M32

/-- Read one byte of a buffer, modelling `uint8_t` access: out-of-range reads
return 0 and every value is reduced modulo 256. -/
def byteAt (l : List Nat) (i : Nat) : Nat := l.getD i 0 % 256

/-- The four little-endian bytes the source stores for a 32-bit length field
(`imageSize & 0xFF`, `(imageSize >> 8) & 0xFF`, ...). -/
def le32 (n : Nat) : List Nat :=
  [n % 256, n / 256 % 256, n / 65536 % 256, n / 16777216 % 256]

/-- Decode the 32-bit little-endian field stored at offset `i`
(`header[i] | header[i+1] << 8 | header[i+2] << 16 | header[i+3] << 24`). -/
def readLe32 (l : List Nat) (i : Nat) : Nat :=
  byteAt l i + 256 * byteAt l (i + 1) + 65536 * byteAt l (i + 2) +
    16777216 * byteAt l (i + 3)

/-- `"MH01"` — the magic prefix of verification and encryption headers. -/
def M32FirmwareUtilHeaderStart : List Nat := [77, 72, 48, 49]

/-- `buffer[14] += buffer[position]` accumulation over bytes 0..13 (uint8 sum). -/
def byteSum (l : List Nat) : Nat := l.foldl (fun a b => (a + b) % 256) 0

/-- `buffer[15] ^= buffer[position]` accumulation over bytes 0..13. -/
def byteXor (l : List Nat) : Nat := l.foldl (fun a b => Nat.xor a b) 0

/-- `CreateSha512VerificatioinHeader` (name as in the source): magic, 32-bit
little-endian length at offset 4, tag `00 01 00 00`, marker `2B 1A`, then the
byte-sum/XOR pair over bytes 0..13. -/
def CreateSha512VerificatioinHeader (imageSize : Nat) : List Nat :=
  let pre := M32FirmwareUtilHeaderStart ++ le32 imageSize ++
    [0x00, 0x01, 0x00, 0x00] ++ [0x2B, 0x1A]
  pre ++ [byteSum pre, byteXor pre]

/-- `CreateAes128CbcEncryptionHeader`: magic, tag `21 00 00 00` at offset 4,
32-bit little-endian length at offset 8, marker `2B 1A`, byte-sum/XOR pair. -/
def CreateAes128CbcEncryptionHeader (imageSize : Nat) : List Nat :=
  let pre := M32FirmwareUtilHeaderStart ++ [0x21, 0x00, 0x00, 0x00] ++
    le32 imageSize ++ [0x2B, 0x1A]
  pre ++ [byteSum pre, byteXor pre]

/-- `GetDataLengthFromVerificationHeader`: requires the `MH01` magic, then
reads the length from bytes 4..7. -/
def GetDataLengthFromVerificationHeader (header : List Nat) : Option Nat :=
  if byteAt header 0 == 77 && byteAt header 1 == 72 &&
      byteAt header 2 == 48 && byteAt header 3 == 49 then
    some (readLe32 header 4)
  else
    none

/-- `GetDataLengthFromEncryptionHeader`: requires the `MH01` magic, then
reads the length from bytes 8..11. -/
def GetDataLengthFromEncryptionHeader (header : List Nat) : Option Nat :=
  if byteAt header 0 == 77 && byteAt header 1 == 72 &&
      byteAt header 2 == 48 && byteAt header 3 == 49 then
    some (readLe32 header 8)
  else
    none

/-! ## The 16-bit checksum with single-step end-around carry -/

/-- One loop iteration of `Caclulate16BitSum` (source name, typo included):
`checksumNew += currentValue` on `uint16_t`, then `checksumNew++` when the
wrapped sum is numerically smaller than the word just added. -/
def sum16step (s w : Nat) : Nat :=
  let t := (s + w) % 65536
  if t < w then t + 1 else t

/-- The 16-bit words the checksum loop reads: iteration `i = 0, 2, 4, ...`
while `i < bufferLength` reads `buffer[i] | buffer[i+1] << 8`; for an odd
length the final high byte is the byte just after the range. -/
def sum16words (buffer : List Nat) (start len : Nat) : List Nat :=
  (List.range ((len + 1) / 2)).map
    (fun k => byteAt buffer (start + 2 * k) + 256 * byteAt buffer (start + 2 * k + 1))

/-- The accumulated (non-inverted) checksum value. -/
def sum16 (buffer : List Nat) (start len : Nat) : Nat :=
  (sum16words buffer start len).foldl sum16step 0

/-- The value `Caclulate16BitSum` computes: the running sum, or
`0xFFFF - sum` when `inverted` is true. -/
def Caclulate16BitSumValue (buffer : List Nat) (start len : Nat) (inverted : Bool) : Nat :=
  if inverted then 65535 - sum16 buffer start len else sum16 buffer start len

/-- `Caclulate16BitSum` as a buffer transformer: reads the old little-endian
checksum at `ckOff`, computes the new value over `[start, start+len)`, and
stores the new value (little-endian) only when it differs. -/
def Caclulate16BitSum (buffer : List Nat) (start len ckOff : Nat) (inverted : Bool) :
    List Nat :=
  let checksumOld := byteAt buffer ckOff + 256 * byteAt buffer (ckOff + 1)
  let checksumNew := Caclulate16BitSumValue buffer start len inverted
  if checksumNew ≠ checksumOld then
    (buffer.set ckOff (checksumNew % 256)).set (ckOff + 1) (checksumNew / 256 % 256)
  else
    buffer

/-! ## IV and salt constants, ASCII-hex codec -/

/-- The compile-time constant 16-byte IV of `CreateFactoryImageFromRecoveryImage`. -/
def IV : List Nat :=
  [0x99, 0x38, 0x0c, 0x25, 0xae, 0xcc, 0x79, 0xd3,
   0x9b, 0x14, 0x5a, 0xc0, 0x43, 0x53, 0xbb, 0xe9]

/-- The compile-time constant 8-byte salt of `EncryptAes128Cbc`. -/
def saltConst : List Nat := [0x65, 0xFC, 0x43, 0xBC, 0x67, 0xA3, 0x23, 0x35]

/-- ASCII `"Salted__"`. -/
def saltedTag : List Nat := [0x53, 0x61, 0x6C, 0x74, 0x65, 0x64, 0x5F, 0x5F]

/-- The 16-byte salted-container prefix `EncryptAes128Cbc` writes. -/
def saltInfo : List Nat := saltedTag ++ saltConst

/-- One lowercase hex digit as `sprintf "%02x"` produces it. -/
def hexDigit (n : Nat) : Nat := if n < 10 then 48 + n else 87 + n

/-- `WriteAes128CbcIvToBuffer`: each IV byte as two lowercase hex characters,
terminated by a line feed. -/
def WriteAes128CbcIvToBuffer : List Nat → List Nat
  | [] => [0x0A]
  | b :: rest =>
      hexDigit (b % 256 / 16) :: hexDigit (b % 256 % 16) ::
        WriteAes128CbcIvToBuffer rest

/-- Value of one ASCII hex character as `sscanf "%2hhx"` reads it; a
non-hex character makes the conversion fail, leaving the destination byte
unset (modelled as 0). -/
def hexVal (c : Nat) : Nat :=
  if 48 ≤ c && c ≤ 57 then c - 48
  else if 97 ≤ c && c ≤ 102 then c - 87
  else if 65 ≤ c && c ≤ 70 then c - 55
  else 0

/-- `ConvertAsciiIvToHexArray`: parse 16 bytes out of the first 32 ASCII
characters (two hex characters per byte). -/
def ConvertAsciiIvToHexArray (ascii : List Nat) : List Nat :=
  (List.range 16).map
    (fun i => 16 * hexVal (byteAt (ascii.take 32) (2 * i)) +
      hexVal (byteAt (ascii.take 32) (2 * i + 1)))

/-! ## Cipher and pipeline

`EncryptAes128Cbc` derives its key with `EVP_BytesToKey` from the constant
salt and encrypts with the explicitly supplied IV; `DecryptAes128Cbc` derives
the key from the salt embedded at bytes 8..15 of its input and skips the
16-byte `"Salted__"` prefix before deciphering.  The AES/KDF core is OpenSSL
library code, so it is passed in as a function `cipher salt data` already
specialised to the device key string and to the IV in use. -/

/-- `EncryptAes128Cbc`: writes the salted-container prefix into the salt
buffer and encrypts with the key derived from the constant salt and the
caller-supplied IV; returns (salt buffer, ciphertext).  `cipher ivHex salt
data` is the OpenSSL `EVP_BytesToKey` + AES-128-CBC core. -/
def EncryptAes128Cbc (cipher : List Nat → List Nat → List Nat → List Nat)
    (ivHex : List Nat) (plain : List Nat) : List Nat × List Nat :=
  (saltInfo, cipher ivHex saltConst plain)

/-- `DecryptAes128Cbc`: key derivation reads the salt at bytes 8..15 of the
framed input, the cipher consumes everything after the first 16 bytes and
uses the caller-supplied IV. -/
def DecryptAes128Cbc (cipher : List Nat → List Nat → List Nat → List Nat)
    (ivHex : List Nat) (data : List Nat) : List Nat :=
  cipher ivHex ((data.take 16).drop 8) (data.drop 16)

/-- `CreateFactoryImageFromRecoveryImage`: frame the recovery image with an
inner verification header, sign the recovery image (appending the 256-byte
inner signature), encrypt [inner header ++ recovery ++ inner signature],
then prepend the encryption header, the ASCII IV and the salted prefix, and
finally wrap everything in an outer verification header and outer signature.
`enc` and `sign` stand for the OpenSSL AES and RSA/SHA-512 primitives. -/
def CreateFactoryImageFromRecoveryImage (enc : List Nat → List Nat → List Nat → List Nat)
    (sign : List Nat → List Nat) (recovery : List Nat) : List Nat :=
  let recoveryImageSize := recovery.length
  let innerHeader := CreateSha512VerificatioinHeader recoveryImageSize
  let innerSignature := sign recovery
  let plain := innerHeader ++ recovery ++ innerSignature
  let encrypted := EncryptAes128Cbc enc IV plain
  let encryptedDataLength := encrypted.2.length
  let encryptionHeader := CreateAes128CbcEncryptionHeader (encryptedDataLength + 16)
  let ivAscii := WriteAes128CbcIvToBuffer IV
  let outerHeader := CreateSha512VerificatioinHeader (encryptedDataLength + 49 + 16)
  let outerPayload := encryptionHeader ++ ivAscii ++ encrypted.1 ++ encrypted.2
  outerHeader ++ outerPayload ++ sign outerPayload

/-- `DecryptFactoryImage`: decode the outer header, verify the outer
signature, decode the encryption header, parse the ASCII IV, decrypt, decode
the inner header, verify the inner signature, and emit the inner payload.
`dec ivHex salt data` is the AES primitive and `verify buffer signature` the
SHA-512/RSA verification primitive. -/
def DecryptFactoryImage (dec : List Nat → List Nat → List Nat → List Nat)
    (verify : List Nat → List Nat → Bool) (img : List Nat) : Option (List Nat) :=
  (GetDataLengthFromVerificationHeader img).bind (fun len1 =>
    if 16 > img.length then none
    else if verify ((img.drop 16).take len1) ((img.drop (16 + len1)).take 256) = false
    then none
    else
      (GetDataLengthFromEncryptionHeader (img.drop 16)).bind (fun len2 =>
        if 32 > img.length then none
        else
          let ivHex := ConvertAsciiIvToHexArray (img.drop 32)
          if 65 > img.length then none
          else
            let decrypted := DecryptAes128Cbc dec ivHex ((img.drop 65).take len2)
            (GetDataLengthFromVerificationHeader decrypted).bind (fun len3 =>
              if 81 > img.length then none
              else if verify ((decrypted.drop 16).take len3)
                  ((decrypted.drop (16 + len3)).take 256) = false then none
              else some ((decrypted.drop 16).take len3))))

/-! ## Partition-header repair (`UpdateHeaderInRecoveryImage`) -/

/-- `memcmp(&buffer[i], magic, strlen(magic)) == 0`. -/
def isMatchAt (img magic : List Nat) (i : Nat) : Bool :=
  (List.range magic.length).all (fun j => byteAt img (i + j) == byteAt magic j)

/-- The scan loop: indices `0 ≤ bufferIndex < size - 80`, recording matches
and stopping as soon as the 16th match has been recorded. -/
def scanAux (img magic : List Nat) : Nat → Nat → List Nat → List Nat
  | _, 0, acc => acc
  | i, r + 1, acc =>
    if isMatchAt img magic i then
      if acc.length + 1 == 16 then acc ++ [i]
      else scanAux img magic (i + 1) r (acc ++ [i])
    else scanAux img magic (i + 1) r acc

/-- The recorded partition-header addresses of `UpdateHeaderInRecoveryImage`. -/
def scanPartitions (img magic : List Nat) : List Nat :=
  scanAux img magic 0 (img.length - 80) []

/-- Per-partition body of the repair loop: update the 32-bit length field at
offset 0x2C when it differs, then recompute the data checksum (over the
payload, stored at offset 0x0E) and the header checksum (over bytes 0..77,
inverted, stored at offset 0x4E).  `pLen` is the already-computed payload
length.  In the C source the length values are `size_t`; the subtractions
producing `pLen` live in `UpdateHeaderLoop`. -/
def RepairPartition (buffer : List Nat) (pStart pLen : Nat) : List Nat :=
  let oldLen := readLe32 buffer (pStart + 44)
  let b1 :=
    if oldLen ≠ pLen then
      ((((buffer.set (pStart + 44) (pLen % 256)).set
          (pStart + 45) (pLen / 256 % 256)).set
          (pStart + 46) (pLen / 65536 % 256)).set
          (pStart + 47) (pLen / 16777216 % 256))
    else buffer
  let b2 := Caclulate16BitSum b1 (pStart + 80) pLen (pStart + 14) false
  Caclulate16BitSum b2 pStart 78 (pStart + 78) true

/-- The partition loop: each recorded partition spans up to the next recorded
address (or the end of the buffer for the last one) minus the 80-byte header.
In the C source the subtraction is on `size_t` and wraps when recorded
addresses are closer than 80 bytes apart, after which the checksum loop reads
far out of bounds; the theorems below only cover the non-wrapping executions
and the counterexamples stop before a wrapped length is consumed. -/
def UpdateHeaderLoop (size : Nat) (buffer : List Nat) : List Nat → List Nat
  | [] => buffer
  | [p] => RepairPartition buffer p (size - p - 80)
  | p :: q :: rest => UpdateHeaderLoop size (RepairPartition buffer p (q - p - 80)) (q :: rest)

/-- `UpdateHeaderInRecoveryImage`: scan for partition headers; fail when none
is found, otherwise emit the buffer with all recorded headers repaired. -/
def UpdateHeaderInRecoveryImage (img magic : List Nat) : Option (List Nat) :=
  let offsets := scanPartitions img magic
  if offsets.isEmpty then none
  else some (UpdateHeaderLoop img.length img offsets)

/-! ## Status logic of `CreateSha512VerificatioinSignature`

The C function computes `status` through its if/else chain (1 on any OpenSSL
failure or a signature whose length is not 256, 0 otherwise) — but it ends
without a `return` statement, so the value reaching the caller is undefined;
this models the status variable itself. -/

/-- The value of the local `status` variable of
`CreateSha512VerificatioinSignature` at the end of the function:
`digestOk` covers the three `SHA512_*` calls, `keyOk` the
`BIO_new_mem_buf`/`PEM_read_bio_RSAPrivateKey` pair (key parse/decrypt),
`setupOk` the `EVP_PKEY`/`EVP_MD_CTX`/`EVP_Sign*` calls, and
`signatureLength` the length produced by `EVP_SignFinal`. -/
def CreateSha512VerificatioinSignatureStatus (digestOk keyOk setupOk : Bool)
    (signatureLength : Nat) : Nat :=
  if digestOk = false then 1
  else if keyOk = false then 1
  else if setupOk = false then 1
  else if signatureLength ≠ 256 then 1
  else 0

/-- ASCII partition magic "DLK6E6010001" of the M32 device record. -/
def RecoveryHeaderStartM32 : List Nat := [68, 76, 75, 54, 69, 54, 48, 49, 48, 48, 48, 49]

/-- input for the C2 witness -/
def img8 : List Nat := RecoveryHeaderStartM32 ++ List.replicate 68 0 ++ List.replicate 20 5

/-- C5 failing input: a 180-byte single-partition image for the M32 magic.
Bytes 68..77 hold the first ten magic characters, the length field already
holds the correct payload length 100, the payload is all zeroes, and the word
at offset 48 is tuned (0x68D1) so that the repaired header checksum becomes
0x3130 — the ASCII bytes "01" that complete a second magic occurrence. -/
def idempotenceBreaker : List Nat :=
  RecoveryHeaderStartM32 ++ [0, 0] ++ [0, 0] ++ List.replicate 28 0 ++ [100, 0, 0, 0] ++
    [209, 104] ++ List.replicate 18 0 ++ [68, 76, 75, 54, 69, 54, 48, 49, 48, 48] ++ [0, 0] ++
    List.replicate 100 0

/-! ## Basic facts about bytes, headers and framing -/

theorem byteAt_lt (l : List Nat) (i : Nat) : byteAt l i < 256 :=
  Nat.mod_lt _ (by decide)

theorem byteAt_set_self (l : List Nat) (i v : Nat) (h : i < l.length) :
    byteAt (l.set i v) i = v % 256 := by
  simp [byteAt, List.getD_eq_getElem?_getD, List.getElem?_set_self h]

theorem byteAt_set_ne (l : List Nat) {i j : Nat} (h : i ≠ j) (v : Nat) :
    byteAt (l.set i v) j = byteAt l j := by
  simp [byteAt, List.getD_eq_getElem?_getD, List.getElem?_set_ne h]

theorem byteAt_append_lt (l r : List Nat) {i : Nat} (h : i < l.length) :
    byteAt (l ++ r) i = byteAt l i := by
  simp [byteAt, List.getD_eq_getElem?_getD, List.getElem?_append_left h]

theorem byteAt_append_ge (l r : List Nat) {i : Nat} (h : l.length ≤ i) :
    byteAt (l ++ r) i = byteAt r (i - l.length) := by
  simp [byteAt, List.getD_eq_getElem?_getD, List.getElem?_append_right h]

theorem length_verHeader (n : Nat) : (CreateSha512VerificatioinHeader n).length = 16 := by
  simp [CreateSha512VerificatioinHeader, le32, M32FirmwareUtilHeaderStart]

theorem length_encHeader (n : Nat) : (CreateAes128CbcEncryptionHeader n).length = 16 := by
  simp [CreateAes128CbcEncryptionHeader, le32, M32FirmwareUtilHeaderStart]

theorem parse_ver_append (n : Nat) (hn : n < 4294967296) (rest : List Nat) :
    GetDataLengthFromVerificationHeader (CreateSha512VerificatioinHeader n ++ rest) = some n := by
  simp [GetDataLengthFromVerificationHeader, CreateSha512VerificatioinHeader, le32,
    M32FirmwareUtilHeaderStart, byteAt, readLe32, List.getD]
  omega

theorem parse_enc_append (n : Nat) (hn : n < 4294967296) (rest : List Nat) :
    GetDataLengthFromEncryptionHeader (CreateAes128CbcEncryptionHeader n ++ rest) = some n := by
  simp [GetDataLengthFromEncryptionHeader, CreateAes128CbcEncryptionHeader, le32,
    M32FirmwareUtilHeaderStart, byteAt, readLe32, List.getD]
  omega

theorem drop_append_of_length (l r : List Nat) (n : Nat) (h : l.length = n) :
    (l ++ r).drop n = r := by subst h; exact List.drop_left l r

theorem take_append_of_length (l r : List Nat) (n : Nat) (h : l.length = n) :
    (l ++ r).take n = l := by subst h; exact List.take_left l r

theorem ivAscii_parse (rest : List Nat) :
    ConvertAsciiIvToHexArray (WriteAes128CbcIvToBuffer IV ++ rest) = IV := by
  have h : (WriteAes128CbcIvToBuffer IV ++ rest).take 32
      = (WriteAes128CbcIvToBuffer IV).take 32 := by
    rw [List.take_append_eq_append_take]
    norm_num [IV, WriteAes128CbcIvToBuffer]
  simp only [ConvertAsciiIvToHexArray, h]
  decide

/-- C1: for every device and every recovery image of length at least 1024
bytes, splitting (decrypting) the factory image built from it returns exactly
the recovery image.  The AES cipher and the RSA/SHA-512 signature primitives
are OpenSSL library code and enter as parameters: any cipher whose decryption
inverts encryption (with at most one block of padding expansion) and any
256-byte signature scheme accepted by its own verifier make the pipeline a
round trip. -/
theorem claim_C1_roundtrip
    (enc dec : List Nat → List Nat → List Nat → List Nat)
    (sign : List Nat → List Nat) (verify : List Nat → List Nat → Bool)
    (recovery : List Nat)
    (hlen : 1024 ≤ recovery.length)
    (hbound : recovery.length < 2147483000)
    (hct : ∀ pt, (enc IV saltConst pt).length ≤ pt.length + 16)
    (hdec : ∀ pt, dec IV saltConst (enc IV saltConst pt) = pt)
    (hsig : ∀ x, (sign x).length = 256)
    (hver : ∀ x, verify x (sign x) = true) :
    DecryptFactoryImage dec verify
      (CreateFactoryImageFromRecoveryImage enc sign recovery) = some recovery := by
  have hivlen : (WriteAes128CbcIvToBuffer IV).length = 33 := by decide
  have hslen : saltInfo.length = 16 := by decide
  have hplainlen : (CreateSha512VerificatioinHeader recovery.length ++ recovery ++
      sign recovery).length = 16 + recovery.length + 256 := by
    simp [length_verHeader, hsig recovery]; omega
  have hdec2 := hdec (CreateSha512VerificatioinHeader recovery.length ++ recovery ++
      sign recovery)
  have hctlen : (enc IV saltConst (CreateSha512VerificatioinHeader recovery.length ++
      recovery ++ sign recovery)).length ≤ recovery.length + 288 := by
    have := hct (CreateSha512VerificatioinHeader recovery.length ++ recovery ++ sign recovery)
    omega
  generalize hctdef : enc IV saltConst (CreateSha512VerificatioinHeader recovery.length ++
      recovery ++ sign recovery) = ct at *
  generalize heL : ct.length = eL at *
  have hbuild : CreateFactoryImageFromRecoveryImage enc sign recovery
      = CreateSha512VerificatioinHeader (eL + 49 + 16) ++
        (CreateAes128CbcEncryptionHeader (eL + 16) ++ WriteAes128CbcIvToBuffer IV ++
          saltInfo ++ ct) ++
        sign (CreateAes128CbcEncryptionHeader (eL + 16) ++ WriteAes128CbcIvToBuffer IV ++
          saltInfo ++ ct) := by
    simp only [CreateFactoryImageFromRecoveryImage, EncryptAes128Cbc, hctdef, heL]
  rw [hbuild]
  set body := CreateAes128CbcEncryptionHeader (eL + 16) ++ WriteAes128CbcIvToBuffer IV ++
      saltInfo ++ ct with hbody
  set os := sign body with hos
  have hbodylen : body.length = eL + 65 := by
    rw [hbody]; simp [length_encHeader, hivlen, hslen]; omega
  have hoslen : os.length = 256 := hsig body
  rw [List.append_assoc]
  have himglen : (CreateSha512VerificatioinHeader (eL + 49 + 16) ++ (body ++ os)).length
      = eL + 337 := by
    simp [length_verHeader, hbodylen, hoslen]; omega
  simp only [DecryptFactoryImage]
  rw [parse_ver_append (eL + 49 + 16) (by omega) _, himglen]
  have g1 : (16 > eL + 337) = False := eq_false (by omega)
  have g2 : (32 > eL + 337) = False := eq_false (by omega)
  have g3 : (65 > eL + 337) = False := eq_false (by omega)
  have g4 : (81 > eL + 337) = False := eq_false (by omega)
  have e1 : (CreateSha512VerificatioinHeader (eL + 49 + 16) ++ (body ++ os)).drop 16
      = body ++ os := drop_append_of_length _ _ _ (length_verHeader _)
  have e2 : (body ++ os).take (eL + 49 + 16) = body :=
    take_append_of_length _ _ _ (by omega)
  have e3 : (CreateSha512VerificatioinHeader (eL + 49 + 16) ++ (body ++ os)).drop
      (16 + (eL + 49 + 16)) = os := by
    rw [← List.append_assoc]
    refine drop_append_of_length _ _ _ ?_
    simp only [List.length_append, length_verHeader, hbodylen]
  have e4 : os.take 256 = os := List.take_of_length_le (le_of_eq hoslen)
  have e5 : GetDataLengthFromEncryptionHeader (body ++ os) = some (eL + 16) := by
    rw [hbody]
    simp only [List.append_assoc]
    exact parse_enc_append _ (by omega) _
  have himg3 : CreateSha512VerificatioinHeader (eL + 49 + 16) ++ (body ++ os)
      = (CreateSha512VerificatioinHeader (eL + 49 + 16) ++
          CreateAes128CbcEncryptionHeader (eL + 16)) ++
        (WriteAes128CbcIvToBuffer IV ++ (saltInfo ++ (ct ++ os))) := by
    rw [hbody]; simp [List.append_assoc]
  have e6 : (CreateSha512VerificatioinHeader (eL + 49 + 16) ++ (body ++ os)).drop 32
      = WriteAes128CbcIvToBuffer IV ++ (saltInfo ++ (ct ++ os)) := by
    rw [himg3]
    refine drop_append_of_length _ _ _ ?_
    simp [length_verHeader, length_encHeader]
  have e6b : ConvertAsciiIvToHexArray ((CreateSha512VerificatioinHeader (eL + 49 + 16) ++
      (body ++ os)).drop 32) = IV := by
    rw [e6]; exact ivAscii_parse _
  have himg4 : CreateSha512VerificatioinHeader (eL + 49 + 16) ++ (body ++ os)
      = (CreateSha512VerificatioinHeader (eL + 49 + 16) ++
          CreateAes128CbcEncryptionHeader (eL + 16) ++ WriteAes128CbcIvToBuffer IV) ++
        (saltInfo ++ (ct ++ os)) := by
    rw [hbody]; simp [List.append_assoc]
  have e7 : (CreateSha512VerificatioinHeader (eL + 49 + 16) ++ (body ++ os)).drop 65
      = saltInfo ++ (ct ++ os) := by
    rw [himg4]
    refine drop_append_of_length _ _ _ ?_
    simp [length_verHeader, length_encHeader, hivlen]
  have e8 : (saltInfo ++ (ct ++ os)).take (eL + 16) = saltInfo ++ ct := by
    rw [show saltInfo ++ (ct ++ os) = (saltInfo ++ ct) ++ os by simp [List.append_assoc]]
    refine take_append_of_length _ _ _ ?_
    simp only [List.length_append, hslen, heL]
    omega
  have e9 : DecryptAes128Cbc dec IV (saltInfo ++ ct)
      = CreateSha512VerificatioinHeader recovery.length ++ recovery ++ sign recovery := by
    simp only [DecryptAes128Cbc, take_append_of_length _ _ _ hslen,
      drop_append_of_length _ _ _ hslen]
    rw [show saltInfo.drop 8 = saltConst by decide]
    exact hdec2
  have e10 : GetDataLengthFromVerificationHeader (CreateSha512VerificatioinHeader
      recovery.length ++ recovery ++ sign recovery) = some recovery.length := by
    rw [List.append_assoc]
    exact parse_ver_append _ (by omega) _
  have e11 : (CreateSha512VerificatioinHeader recovery.length ++ recovery ++
      sign recovery).drop 16 = recovery ++ sign recovery := by
    rw [List.append_assoc]
    exact drop_append_of_length _ _ _ (length_verHeader _)
  have e12 : (recovery ++ sign recovery).take recovery.length = recovery :=
    take_append_of_length _ _ _ rfl
  have e13 : (CreateSha512VerificatioinHeader recovery.length ++ recovery ++
      sign recovery).drop (16 + recovery.length) = sign recovery := by
    refine drop_append_of_length _ _ _ ?_
    simp only [List.length_append, length_verHeader]
  have e14 : (sign recovery).take 256 = sign recovery :=
    List.take_of_length_le (le_of_eq (hsig _))
  simp only [Option.some_bind, g1, g2, g3, g4, if_false, e1, e2, e3, e4, e5, e6b, e7, e8,
    e9, e10, e11, e12, e13, e14, hos, hver, Bool.true_eq_false, ite_false]

/-- C1 witness: the round trip evaluated at a concrete 1024-byte recovery
image with a concrete (identity) cipher and a concrete length-tag signature
scheme. -/
theorem claim_C1_roundtrip_witness :
    DecryptFactoryImage (fun _ _ data => data)
      (fun x s => s == List.replicate 256 (x.length % 256))
      (CreateFactoryImageFromRecoveryImage (fun _ _ data => data)
        (fun x => List.replicate 256 (x.length % 256)) (List.replicate 1024 7))
      = some (List.replicate 1024 7) :=
  claim_C1_roundtrip (fun _ _ data => data) (fun _ _ data => data)
    (fun x => List.replicate 256 (x.length % 256))
    (fun x s => s == List.replicate 256 (x.length % 256))
    (List.replicate 1024 7)
    (by rw [List.length_replicate]) (by rw [List.length_replicate]; decide)
    (fun pt => Nat.le_add_right pt.length 16) (fun pt => rfl)
    (fun x => by rw [List.length_replicate]) (fun x => beq_self_eq_true _)


/-- With the identity cipher the bytes of the built factory image starting at
offset `97 + |recovery|` are the inner signature followed by the outer
signature: the inner signature the build appends is `sign recovery`, computed
over the recovery image alone. -/
theorem build_id_drop97 (sign : List Nat → List Nat) (recovery : List Nat) :
    (CreateFactoryImageFromRecoveryImage (fun _ _ data => data) sign recovery).drop
      (97 + recovery.length)
      = sign recovery ++
        sign (CreateAes128CbcEncryptionHeader
            ((CreateSha512VerificatioinHeader recovery.length ++ recovery ++
              sign recovery).length + 16) ++
          WriteAes128CbcIvToBuffer IV ++ saltInfo ++
          (CreateSha512VerificatioinHeader recovery.length ++ recovery ++ sign recovery)) := by
  have hsplit : CreateFactoryImageFromRecoveryImage (fun _ _ data => data) sign recovery
      = (CreateSha512VerificatioinHeader ((CreateSha512VerificatioinHeader recovery.length ++
            recovery ++ sign recovery).length + 49 + 16) ++
          CreateAes128CbcEncryptionHeader ((CreateSha512VerificatioinHeader recovery.length ++
            recovery ++ sign recovery).length + 16) ++
          WriteAes128CbcIvToBuffer IV ++ saltInfo ++
          CreateSha512VerificatioinHeader recovery.length ++ recovery) ++
        (sign recovery ++
          sign (CreateAes128CbcEncryptionHeader
              ((CreateSha512VerificatioinHeader recovery.length ++ recovery ++
                sign recovery).length + 16) ++
            WriteAes128CbcIvToBuffer IV ++ saltInfo ++
            (CreateSha512VerificatioinHeader recovery.length ++ recovery ++ sign recovery))) := by
    simp only [CreateFactoryImageFromRecoveryImage, EncryptAes128Cbc]
    simp [List.append_assoc]
  rw [hsplit]
  refine drop_append_of_length _ _ _ ?_
  simp only [List.length_append, length_verHeader, length_encHeader]
  have : (WriteAes128CbcIvToBuffer IV).length = 33 := by decide
  have hs : saltInfo.length = 16 := by decide
  omega

/-- C4 (amended): the inner 256-byte signature of `BuildFactoryImage` is
computed over the recovery-image bytes alone — the inner `VerificationHeader`
is *not* part of the signed span.  (Inspected through the identity cipher so
the encrypted region is visible in the output.) -/
theorem claim_C4_amended (sign : List Nat → List Nat) (recovery : List Nat)
    (hs : (sign recovery).length = 256) :
    ((CreateFactoryImageFromRecoveryImage (fun _ _ data => data) sign recovery).drop
      (97 + recovery.length)).take 256 = sign recovery := by
  rw [build_id_drop97]
  exact take_append_of_length _ _ _ hs

/-- C4 witness: the amended statement evaluated at a concrete 1024-byte
recovery image and a length-tag signature scheme. -/
theorem claim_C4_amended_witness :
    ((CreateFactoryImageFromRecoveryImage (fun _ _ data => data)
        (fun x => List.replicate 256 (x.length % 256)) (List.replicate 1024 7)).drop
      (97 + (List.replicate 1024 7).length)).take 256
      = (fun x => List.replicate 256 (x.length % 256)) (List.replicate 1024 7) :=
  claim_C4_amended (fun x => List.replicate 256 (x.length % 256)) (List.replicate 1024 7)
    (by rw [List.length_replicate])

/-- C4 counterexample: the claim as stated is false — at a concrete
1024-byte recovery image, the inner-signature bytes of the built factory
image differ from the signature of the framed buffer (inner header followed
by the recovery image); the build passes only the recovery image to the
signing primitive (`CreateSha512VerificatioinSignature(recoveryImage,
recoveryImageSize, device)`). -/
theorem claim_C4_counterexample :
    ¬ (((CreateFactoryImageFromRecoveryImage (fun _ _ data => data)
        (fun x => List.replicate 256 (x.length % 256)) (List.replicate 1024 7)).drop
      (97 + (List.replicate 1024 7).length)).take 256
      = (fun x => List.replicate 256 (x.length % 256))
          (CreateSha512VerificatioinHeader (List.replicate 1024 7).length ++
            List.replicate 1024 7)) := by
  rw [build_id_drop97, take_append_of_length _ _ _ (by rw [List.length_replicate])]
  simp only [List.length_replicate, List.length_append, length_verHeader]
  rw [List.replicate_inj]
  omega

/-- C10: `BuildFactoryImage` is deterministic.  The embedding is a pure
function of the recovery image and the (deterministic) cipher/signature
primitives, and the randomness-relevant fields are compile-time constants:
for every input, bytes [32, 65) of the output are the ASCII rendering of the
fixed IV and bytes [73, 81) are the fixed salt `65 FC 43 BC 67 A3 23 35`;
two runs on the same input produce the identical image. -/
theorem claim_C10_deterministic (enc : List Nat → List Nat → List Nat → List Nat)
    (sign : List Nat → List Nat) (recovery : List Nat) :
    ((CreateFactoryImageFromRecoveryImage enc sign recovery).drop 32).take 33
      = WriteAes128CbcIvToBuffer IV ∧
    ((CreateFactoryImageFromRecoveryImage enc sign recovery).drop 73).take 8
      = saltConst ∧
    CreateFactoryImageFromRecoveryImage enc sign recovery
      = CreateFactoryImageFromRecoveryImage enc sign recovery := by
  have hivlen : (WriteAes128CbcIvToBuffer IV).length = 33 := by decide
  have hsplit1 : ∀ rest : List Nat, CreateSha512VerificatioinHeader
      ((enc IV saltConst (CreateSha512VerificatioinHeader recovery.length ++ recovery ++
        sign recovery)).length + 49 + 16) ++
      CreateAes128CbcEncryptionHeader ((enc IV saltConst
        (CreateSha512VerificatioinHeader recovery.length ++ recovery ++
          sign recovery)).length + 16) ++ rest
      = (CreateSha512VerificatioinHeader ((enc IV saltConst
          (CreateSha512VerificatioinHeader recovery.length ++ recovery ++
            sign recovery)).length + 49 + 16) ++
        CreateAes128CbcEncryptionHeader ((enc IV saltConst
          (CreateSha512VerificatioinHeader recovery.length ++ recovery ++
            sign recovery)).length + 16)) ++ rest := by
    intro rest
    simp [List.append_assoc]
  refine ⟨?_, ?_, rfl⟩
  · have hb : CreateFactoryImageFromRecoveryImage enc sign recovery
        = (CreateSha512VerificatioinHeader ((enc IV saltConst
            (CreateSha512VerificatioinHeader recovery.length ++ recovery ++
              sign recovery)).length + 49 + 16) ++
          CreateAes128CbcEncryptionHeader ((enc IV saltConst
            (CreateSha512VerificatioinHeader recovery.length ++ recovery ++
              sign recovery)).length + 16)) ++
          (WriteAes128CbcIvToBuffer IV ++
            (saltInfo ++ (enc IV saltConst (CreateSha512VerificatioinHeader recovery.length ++
              recovery ++ sign recovery) ++
              sign (CreateAes128CbcEncryptionHeader ((enc IV saltConst
                  (CreateSha512VerificatioinHeader recovery.length ++ recovery ++
                    sign recovery)).length + 16) ++
                WriteAes128CbcIvToBuffer IV ++ saltInfo ++
                enc IV saltConst (CreateSha512VerificatioinHeader recovery.length ++
                  recovery ++ sign recovery))))) := by
      simp only [CreateFactoryImageFromRecoveryImage, EncryptAes128Cbc]
      simp [List.append_assoc]
    rw [hb, drop_append_of_length _ _ 32
      (by simp only [List.length_append, length_verHeader, length_encHeader])]
    exact take_append_of_length _ _ _ hivlen
  · have hb : CreateFactoryImageFromRecoveryImage enc sign recovery
        = (CreateSha512VerificatioinHeader ((enc IV saltConst
            (CreateSha512VerificatioinHeader recovery.length ++ recovery ++
              sign recovery)).length + 49 + 16) ++
          CreateAes128CbcEncryptionHeader ((enc IV saltConst
            (CreateSha512VerificatioinHeader recovery.length ++ recovery ++
              sign recovery)).length + 16) ++
          WriteAes128CbcIvToBuffer IV ++ saltedTag) ++
          (saltConst ++ (enc IV saltConst (CreateSha512VerificatioinHeader recovery.length ++
            recovery ++ sign recovery) ++
            sign (CreateAes128CbcEncryptionHeader ((enc IV saltConst
                (CreateSha512VerificatioinHeader recovery.length ++ recovery ++
                  sign recovery)).length + 16) ++
              WriteAes128CbcIvToBuffer IV ++ saltInfo ++
              enc IV saltConst (CreateSha512VerificatioinHeader recovery.length ++
                recovery ++ sign recovery)))) := by
      simp only [CreateFactoryImageFromRecoveryImage, EncryptAes128Cbc, saltInfo]
      simp [List.append_assoc]
    rw [hb, drop_append_of_length _ _ 73 (by
      simp only [List.length_append, length_verHeader, length_encHeader, hivlen]
      decide)]
    exact take_append_of_length _ _ _ (by decide)

/-- C6: the 16-byte `EncryptionHeader` carries the same `MH01` magic as a
`VerificationHeader`, the type tag `21 00 00 00` at offset 4, the 4-byte
little-endian payload length at offset 8, and the same trailing byte-sum/XOR
pair over bytes 0..13; `GetDataLengthFromEncryptionHeader` reads the length
back from offset 8. -/
theorem claim_C6_encryptionHeader (n : Nat) (hn : n < 4294967296) :
    (CreateAes128CbcEncryptionHeader n).length = 16 ∧
    (CreateAes128CbcEncryptionHeader n).take 4 = M32FirmwareUtilHeaderStart ∧
    (CreateSha512VerificatioinHeader n).take 4 = M32FirmwareUtilHeaderStart ∧
    ((CreateAes128CbcEncryptionHeader n).drop 4).take 4 = [0x21, 0x00, 0x00, 0x00] ∧
    ((CreateAes128CbcEncryptionHeader n).drop 8).take 4 = le32 n ∧
    (CreateAes128CbcEncryptionHeader n).drop 14
      = [byteSum ((CreateAes128CbcEncryptionHeader n).take 14),
         byteXor ((CreateAes128CbcEncryptionHeader n).take 14)] ∧
    (CreateSha512VerificatioinHeader n).drop 14
      = [byteSum ((CreateSha512VerificatioinHeader n).take 14),
         byteXor ((CreateSha512VerificatioinHeader n).take 14)] ∧
    GetDataLengthFromEncryptionHeader (CreateAes128CbcEncryptionHeader n) = some n := by
  refine ⟨length_encHeader n, rfl, rfl, rfl, rfl, rfl, rfl, ?_⟩
  have h := parse_enc_append n hn []
  simpa using h

/-- C6 witness: the header layout evaluated at the concrete size 1000. -/
theorem claim_C6_encryptionHeader_witness :
    (CreateAes128CbcEncryptionHeader 1000).length = 16 ∧
    (CreateAes128CbcEncryptionHeader 1000).take 4 = M32FirmwareUtilHeaderStart ∧
    (CreateSha512VerificatioinHeader 1000).take 4 = M32FirmwareUtilHeaderStart ∧
    ((CreateAes128CbcEncryptionHeader 1000).drop 4).take 4 = [0x21, 0x00, 0x00, 0x00] ∧
    ((CreateAes128CbcEncryptionHeader 1000).drop 8).take 4 = le32 1000 ∧
    (CreateAes128CbcEncryptionHeader 1000).drop 14
      = [byteSum ((CreateAes128CbcEncryptionHeader 1000).take 14),
         byteXor ((CreateAes128CbcEncryptionHeader 1000).take 14)] ∧
    (CreateSha512VerificatioinHeader 1000).drop 14
      = [byteSum ((CreateSha512VerificatioinHeader 1000).take 14),
         byteXor ((CreateSha512VerificatioinHeader 1000).take 14)] ∧
    GetDataLengthFromEncryptionHeader (CreateAes128CbcEncryptionHeader 1000) = some 1000 :=
  claim_C6_encryptionHeader 1000 (by decide)


theorem sum16step_lt {s w : Nat} (hw : w < 65536) : sum16step s w < 65536 := by
  simp only [sum16step]
  have h := Nat.mod_lt (s + w) (show 0 < 65536 by decide)
  split <;> omega

theorem sum16step_spec {s w : Nat} (hs : s < 65536) (hw : w < 65536) :
    sum16step s w = if s + w < 65536 then s + w else s + w - 65536 + 1 := by
  simp only [sum16step]
  have h1 : s + w < 2 * 65536 := by omega
  have h2 : (s + w) % 65536 = if s + w < 65536 then s + w else s + w - 65536 := by
    split <;> omega
  rw [h2]
  split_ifs <;> omega

theorem foldl_sum16step_spec (ws : List Nat) (hws : ∀ w ∈ ws, w < 65536) :
    ∀ s, s < 65536 → ws.foldl sum16step s
      = ws.foldl (fun s w => if s + w < 65536 then s + w else s + w - 65536 + 1) s := by
  induction ws with
  | nil => intro s _; rfl
  | cons w rest ih =>
    intro s hs
    have hw : w < 65536 := hws w (List.mem_cons_self w rest)
    have hrest : ∀ v ∈ rest, v < 65536 := fun v hv => hws v (List.mem_cons_of_mem w hv)
    simp only [List.foldl_cons]
    rw [sum16step_spec hs hw, ← sum16step_spec hs hw]
    exact ih hrest (sum16step s w) (sum16step_lt hw)

theorem sum16words_lt (buffer : List Nat) (start len : Nat) :
    ∀ w ∈ sum16words buffer start len, w < 65536 := by
  intro w hw
  simp only [sum16words, List.mem_map] at hw
  obtain ⟨k, _, rfl⟩ := hw
  have h1 := byteAt_lt buffer (start + 2 * k)
  have h2 := byteAt_lt buffer (start + 2 * k + 1)
  omega

/-- C7: `Caclulate16BitSum` folds the consecutive little-endian 16-bit words
of the buffer with a step that adds the word modulo 65536 and increments by
exactly 1 when a wraparound occurred (equivalently: when the new sum is
numerically smaller than the word just added) — a single-step end-around
carry, not full carry propagation — and the inverted mode returns
`0xFFFF` minus the accumulated sum. -/
theorem claim_C7_checksum (buffer : List Nat) (start len : Nat) :
    Caclulate16BitSumValue buffer start len true
      = 65535 - Caclulate16BitSumValue buffer start len false ∧
    Caclulate16BitSumValue buffer start len false
      = (sum16words buffer start len).foldl
          (fun s w => if s + w < 65536 then s + w else s + w - 65536 + 1) 0 := by
  constructor
  · rfl
  · simp only [Caclulate16BitSumValue, if_neg (by simp : ¬ (false = true)), sum16]
    exact foldl_sum16step_spec _ (sum16words_lt buffer start len) 0 (by decide)


theorem scanAux_eq (img magic : List Nat) :
    ∀ (r i : Nat) (acc : List Nat), acc.length ≤ 15 →
      scanAux img magic i r acc
        = (acc ++ (List.range' i r).filter (fun j => isMatchAt img magic j)).take 16 := by
  intro r
  induction r with
  | zero =>
    intro i acc hacc
    simp only [scanAux, List.range', List.filter_nil, List.append_nil]
    exact (List.take_of_length_le (by omega)).symm
  | succ r ih =>
    intro i acc hacc
    rw [List.range'_succ]
    simp only [scanAux, List.filter_cons]
    by_cases hm : isMatchAt img magic i
    · rw [if_pos hm, if_pos hm]
      by_cases hfull : acc.length + 1 = 16
      · rw [if_pos (by simp [hfull])]
        rw [show acc ++ i :: List.filter (fun j => isMatchAt img magic j) (List.range' (i+1) r)
            = (acc ++ [i]) ++ List.filter (fun j => isMatchAt img magic j) (List.range' (i+1) r)
          by simp]
        rw [List.take_append_eq_append_take]
        have hlen : (acc ++ [i]).length = 16 := by simp; omega
        rw [List.take_of_length_le (le_of_eq hlen), hlen]
        simp
      · rw [if_neg (by simp; omega)]
        rw [ih (i+1) (acc ++ [i]) (by simp; omega)]
        simp
    · rw [if_neg hm, if_neg hm]
      exact ih (i+1) acc hacc

theorem scanPartitions_eq (img magic : List Nat) :
    scanPartitions img magic
      = ((List.range (img.length - 80)).filter (fun i => isMatchAt img magic i)).take 16 := by
  rw [scanPartitions, scanAux_eq img magic (img.length - 80) 0 [] (by simp),
    List.range_eq_range']
  simp

/-- C9: the partition scan records exactly the first min(16, total) magic
match positions, in ascending order (the recorded list is the 16-element
prefix of all match positions in `[0, size - 80)`), so it holds at most 16
offsets and scanning stops once the 16th match has been recorded. -/
theorem claim_C9_scan (img magic : List Nat) :
    scanPartitions img magic
      = ((List.range (img.length - 80)).filter (fun i => isMatchAt img magic i)).take 16 ∧
    (scanPartitions img magic).length ≤ 16 ∧
    List.Sorted (fun a b => a < b) (scanPartitions img magic) := by
  refine ⟨scanPartitions_eq img magic, ?_, ?_⟩
  · rw [scanPartitions_eq, List.length_take]
    omega
  · rw [scanPartitions_eq]
    exact List.Pairwise.sublist
      ((List.take_sublist _ _).trans (List.filter_sublist _))
      (List.pairwise_lt_range (img.length - 80))

/-- C8: `RepairRecoveryHeaders` returns failure exactly when the scan records
zero partition-magic matches (equivalently, when there is no match position
at all, since the recorded list is a prefix of all match positions); with at
least one partition it emits the mutated buffer.  (File I/O success is
outside the embedding.) -/
theorem claim_C8_repairStatus (img magic : List Nat) :
    UpdateHeaderInRecoveryImage img magic
      = (if scanPartitions img magic = [] then none
         else some (UpdateHeaderLoop img.length img (scanPartitions img magic))) ∧
    (scanPartitions img magic = []
      ↔ ((List.range (img.length - 80)).filter (fun i => isMatchAt img magic i)).length = 0) := by
  constructor
  · rw [UpdateHeaderInRecoveryImage]
    by_cases h : scanPartitions img magic = []
    · rw [if_pos h, if_pos (by simp [h])]
    · rw [if_neg h, if_neg (by simpa [List.isEmpty_iff] using h)]
  · rw [scanPartitions_eq, List.take_eq_nil_iff, List.length_eq_zero]
    constructor
    · rintro (h | h)
      · omega
      · exact h
    · intro h
      exact Or.inr h


theorem Caclulate16BitSum_length (b : List Nat) (s l ck : Nat) (inv : Bool) :
    (Caclulate16BitSum b s l ck inv).length = b.length := by
  rw [Caclulate16BitSum]
  split <;> simp

theorem RepairPartition_length (b : List Nat) (p l : Nat) :
    (RepairPartition b p l).length = b.length := by
  rw [RepairPartition, Caclulate16BitSum_length, Caclulate16BitSum_length]
  split <;> simp

theorem byteAt_Caclulate16BitSum_ne (b : List Nat) (s l ck : Nat) (inv : Bool) {j : Nat}
    (h1 : j ≠ ck) (h2 : j ≠ ck + 1) :
    byteAt (Caclulate16BitSum b s l ck inv) j = byteAt b j := by
  rw [Caclulate16BitSum]
  split
  · rw [byteAt_set_ne _ (fun h => h2 h.symm), byteAt_set_ne _ (fun h => h1 h.symm)]
  · rfl

theorem byteAt_RepairPartition_outside (b : List Nat) (p l : Nat) {j : Nat}
    (h : j < p + 14 ∨ p + 80 ≤ j) :
    byteAt (RepairPartition b p l) j = byteAt b j := by
  rw [RepairPartition]
  rw [byteAt_Caclulate16BitSum_ne _ _ _ _ _ (by omega) (by omega),
    byteAt_Caclulate16BitSum_ne _ _ _ _ _ (by omega) (by omega)]
  split
  · rw [byteAt_set_ne _ (by omega), byteAt_set_ne _ (by omega),
      byteAt_set_ne _ (by omega), byteAt_set_ne _ (by omega)]
  · rfl

theorem sum16_congr (b1 b2 : List Nat) (start len : Nat)
    (h : ∀ j, start ≤ j → j < start + 2 * ((len + 1) / 2) → byteAt b1 j = byteAt b2 j) :
    sum16 b1 start len = sum16 b2 start len := by
  unfold sum16 sum16words
  congr 1
  apply List.map_congr_left
  intro k hk
  rw [List.mem_range] at hk
  rw [h (start + 2 * k) (by omega) (by omega), h (start + 2 * k + 1) (by omega) (by omega)]

theorem foldl_sum16step_lt (ws : List Nat) (hws : ∀ w ∈ ws, w < 65536) :
    ∀ s, s < 65536 → ws.foldl sum16step s < 65536 := by
  induction ws with
  | nil => intro s hs; simpa using hs
  | cons w rest ih =>
    intro s hs
    simp only [List.foldl_cons]
    exact ih (fun v hv => hws v (List.mem_cons_of_mem w hv))
      (sum16step s w) (sum16step_lt (hws w (List.mem_cons_self w rest)))

theorem sum16_lt (b : List Nat) (s l : Nat) : sum16 b s l < 65536 :=
  foldl_sum16step_lt _ (sum16words_lt b s l) 0 (by decide)

theorem sum16words_split80 (b : List Nat) (s : Nat) :
    sum16words b s 80 = sum16words b s 78 ++ [byteAt b (s + 78) + 256 * byteAt b (s + 79)] := by
  unfold sum16words
  norm_num [List.range_succ]

theorem sum16_append80 (b : List Nat) (s : Nat) :
    sum16 b s 80 = sum16step (sum16 b s 78) (byteAt b (s + 78) + 256 * byteAt b (s + 79)) := by
  unfold sum16
  rw [sum16words_split80, List.foldl_append]
  rfl

theorem sum16step_complement {S c : Nat} (hS : S < 65536) (hc : c = 65535 - S) :
    sum16step S c = 65535 := by
  simp only [sum16step]
  split <;> omega

theorem Caclulate16BitSumValue_true (b : List Nat) (s l : Nat) :
    Caclulate16BitSumValue b s l true = 65535 - sum16 b s l := rfl

theorem final_header_sum (b2 : List Nat) (p : Nat) (hlen : p + 80 ≤ b2.length) :
    sum16 (Caclulate16BitSum b2 p 78 (p + 78) true) p 80 = 65535 := by
  have hS := sum16_lt b2 p 78
  simp only [Caclulate16BitSum, Caclulate16BitSumValue_true]
  split
  · rw [sum16_append80]
    have h78 : byteAt ((b2.set (p + 78) ((65535 - sum16 b2 p 78) % 256)).set (p + 79)
        ((65535 - sum16 b2 p 78) / 256 % 256)) (p + 78)
        = (65535 - sum16 b2 p 78) % 256 := by
      rw [byteAt_set_ne _ (by omega), byteAt_set_self _ _ _ (by omega)]
      omega
    have h79 : byteAt ((b2.set (p + 78) ((65535 - sum16 b2 p 78) % 256)).set (p + 79)
        ((65535 - sum16 b2 p 78) / 256 % 256)) (p + 79)
        = (65535 - sum16 b2 p 78) / 256 % 256 := by
      rw [byteAt_set_self _ _ _ (by simp only [List.length_set]; omega)]
      omega
    have hcongr : sum16 ((b2.set (p + 78) ((65535 - sum16 b2 p 78) % 256)).set (p + 79)
        ((65535 - sum16 b2 p 78) / 256 % 256)) p 78 = sum16 b2 p 78 := by
      apply sum16_congr
      intro j hj1 hj2
      rw [byteAt_set_ne _ (by omega), byteAt_set_ne _ (by omega)]
    rw [h78, h79, hcongr]
    exact sum16step_complement hS (by omega)
  · rename_i heq
    push_neg at heq
    rw [show p + 78 + 1 = p + 79 from rfl] at heq
    rw [sum16_append80]
    exact sum16step_complement hS (by omega)

theorem RepairPartition_header_sum (b : List Nat) (p l : Nat) (hlen : p + 80 ≤ b.length) :
    sum16 (RepairPartition b p l) p 80 = 65535 := by
  simp only [RepairPartition]
  apply final_header_sum
  rw [Caclulate16BitSum_length]
  split <;> simpa using hlen

theorem UpdateHeaderLoop_length (size : Nat) : ∀ (offsets : List Nat) (b : List Nat),
    (UpdateHeaderLoop size b offsets).length = b.length := by
  intro offsets
  induction offsets with
  | nil => intro b; rfl
  | cons p rest ih =>
    intro b
    cases rest with
    | nil =>
      simp only [UpdateHeaderLoop]
      rw [RepairPartition_length]
    | cons q rest2 =>
      simp only [UpdateHeaderLoop]
      rw [ih, RepairPartition_length]

theorem UpdateHeaderLoop_byteAt_lt (size : Nat) : ∀ (offsets : List Nat) (b : List Nat) (j : Nat),
    (∀ q ∈ offsets, j < q + 14) →
    byteAt (UpdateHeaderLoop size b offsets) j = byteAt b j := by
  intro offsets
  induction offsets with
  | nil => intro b j _; rfl
  | cons p rest ih =>
    intro b j hj
    cases rest with
    | nil =>
      simp only [UpdateHeaderLoop]
      exact byteAt_RepairPartition_outside _ _ _ (Or.inl (hj p (by simp)))
    | cons q rest2 =>
      simp only [UpdateHeaderLoop]
      rw [ih _ j (fun r hr => hj r (List.mem_cons_of_mem p hr))]
      exact byteAt_RepairPartition_outside _ _ _ (Or.inl (hj p (by simp)))

theorem chain80_le : ∀ {rest : List Nat} {q : Nat},
    List.Chain' (fun a b => a + 80 ≤ b) (q :: rest) → ∀ r ∈ rest, q + 80 ≤ r := by
  intro rest
  induction rest with
  | nil =>
    intro q _ r hr
    simp at hr
  | cons r2 rest2 ih =>
    intro q hch r hr
    rw [List.chain'_cons] at hch
    rcases List.mem_cons.mp hr with h | h
    · subst h
      exact hch.1
    · have := ih hch.2 r h
      omega

theorem UpdateHeaderLoop_sum (size : Nat) : ∀ (offsets : List Nat) (b : List Nat),
    List.Chain' (fun a c => a + 80 ≤ c) offsets →
    (∀ q ∈ offsets, q + 80 ≤ b.length) →
    ∀ p ∈ offsets, sum16 (UpdateHeaderLoop size b offsets) p 80 = 65535 := by
  intro offsets
  induction offsets with
  | nil =>
    intro b _ _ p hp
    simp at hp
  | cons p0 rest ih =>
    intro b hch hlen p hp
    cases rest with
    | nil =>
      have hp0 : p = p0 := by simpa using hp
      subst hp0
      simp only [UpdateHeaderLoop]
      exact RepairPartition_header_sum _ _ _ (hlen p (by simp))
    | cons q rest2 =>
      simp only [UpdateHeaderLoop]
      rcases List.mem_cons.mp hp with rfl | hp2
      · have hq80 : p + 80 ≤ q := (List.chain'_cons.mp hch).1
        have hall : ∀ r ∈ q :: rest2, p + 80 ≤ r := by
          intro r hr
          rcases List.mem_cons.mp hr with rfl | hr2
          · exact hq80
          · have := chain80_le (List.chain'_cons.mp hch).2 r hr2
            omega
        have hstable : sum16 (UpdateHeaderLoop size (RepairPartition b p (q - p - 80))
            (q :: rest2)) p 80 = sum16 (RepairPartition b p (q - p - 80)) p 80 := by
          apply sum16_congr
          intro j hj1 hj2
          apply UpdateHeaderLoop_byteAt_lt
          intro r hr
          have := hall r hr
          omega
        rw [hstable]
        exact RepairPartition_header_sum _ _ _ (hlen p (by simp))
      · apply ih (RepairPartition b p0 (q - p0 - 80)) (List.chain'_cons.mp hch).2 _ p hp2
        intro r hr
        rw [RepairPartition_length]
        exact hlen r (List.mem_cons_of_mem p0 hr)

/-- C2: after `RepairRecoveryHeaders` succeeds, the non-inverted 16-bit
sum-with-end-around-carry over all 80 bytes of every recorded partition
header (including the trailing checksum field) equals `0xFFFF`.  The
hypothesis that consecutive recorded offsets are at least 80 bytes apart
delimits the executions on which the C code is well defined: closer offsets
make `partitionLength -= 80` wrap around on `size_t` and the checksum loop
then reads far out of bounds (see C5). -/
theorem claim_C2_headerChecksum (img magic : List Nat)
    (hsp : List.Chain' (fun a b => a + 80 ≤ b) (scanPartitions img magic))
    (p : Nat) (hp : p ∈ scanPartitions img magic) :
    sum16 (UpdateHeaderLoop img.length img (scanPartitions img magic)) p 80 = 65535 := by
  apply UpdateHeaderLoop_sum img.length (scanPartitions img magic) img hsp _ p hp
  intro q hq
  rw [scanPartitions_eq] at hq
  have hmem : q ∈ List.range (img.length - 80) :=
    ((List.take_sublist _ _).trans (List.filter_sublist _)).subset hq
  rw [List.mem_range] at hmem
  omega

/-- C2 witness: a concrete 100-byte single-partition image. -/
theorem claim_C2_headerChecksum_witness :
    List.Chain' (fun a b => a + 80 ≤ b) (scanPartitions img8 RecoveryHeaderStartM32) ∧
    0 ∈ scanPartitions img8 RecoveryHeaderStartM32 ∧
    sum16 (UpdateHeaderLoop img8.length img8 (scanPartitions img8 RecoveryHeaderStartM32))
      0 80 = 65535 :=
  ⟨by rw [show scanPartitions img8 RecoveryHeaderStartM32 = [0] from rfl]; simp,
    by decide,
    claim_C2_headerChecksum img8 RecoveryHeaderStartM32
      (by rw [show scanPartitions img8 RecoveryHeaderStartM32 = [0] from rfl]; simp)
      0 (by decide)⟩


set_option maxRecDepth 40000 in
/-- C5: scan instability refuting idempotence.  On `idempotenceBreaker` the
first repair succeeds (one partition, at offset 0), but the header-checksum
bytes it writes complete a second partition-magic occurrence at offset 68:
rescanning the output records [0, 68].  A second run therefore processes
different partitions, and its span computation for the partition at offset 0
is 68 - 80, which wraps around on `size_t` and drives the data-checksum loop
far out of bounds instead of reproducing the output. -/
theorem claim_C5_scanUnstable :
    scanPartitions idempotenceBreaker RecoveryHeaderStartM32 = [0] ∧
    UpdateHeaderInRecoveryImage idempotenceBreaker RecoveryHeaderStartM32
      = some (UpdateHeaderLoop idempotenceBreaker.length idempotenceBreaker [0]) ∧
    scanPartitions (UpdateHeaderLoop idempotenceBreaker.length idempotenceBreaker [0])
      RecoveryHeaderStartM32 = [0, 68] := by
  refine ⟨by decide, ?_, by decide⟩
  rw [UpdateHeaderInRecoveryImage]
  rw [show scanPartitions idempotenceBreaker RecoveryHeaderStartM32 = [0] from by decide]
  rfl

/-- C3: the local `status` of `CreateSha512VerificatioinSignature` is 0
exactly when the digest, key-parse/decrypt and signing steps all succeed and
the produced signature is exactly 256 bytes.  The C function, however, ends
without a `return` statement, so this status never reaches the caller: the
claimed "returns 0 on success" matches the function's own documentation but
not the code, which leaves the returned value undefined. -/
theorem claim_C3_signStatus (digestOk keyOk setupOk : Bool) (signatureLength : Nat) :
    CreateSha512VerificatioinSignatureStatus digestOk keyOk setupOk signatureLength = 0
      ↔ (digestOk = true ∧ keyOk = true ∧ setupOk = true ∧ signatureLength = 256) := by
  unfold CreateSha512VerificatioinSignatureStatus
  split_ifs <;> simp_all


end M32
